import Mathlib

/-!
Verification of the citation-source aggregation core (`src/app.py`).

The file shallowly embeds the data model and the algorithmic functions of
`app.py` (identifier normalization, collaborator extraction, citation
aggregation, pagination loops, rate-limit retry) as executable Lean
definitions, and proves or refutes the frozen specification claims
about them.
-/

namespace CitationSource

/-! ## Identifier normalization

`app.py` strips the OpenAlex URL prefix inline at several places via
`a_id.replace("https://openalex.org/", "") if a_id.startswith(...) else a_id`.
Python's `str.replace` removes every non-overlapping occurrence scanning
left to right, which `stripAllAux` models on character lists (with a fuel
argument equal to the string length, enough because every step consumes at
least one character). -/

/-- The OpenAlex URL prefix `"https://openalex.org/"` as a character list. -/
def oaPrefix : List Char := "https://openalex.org/".data

/-- Remove every non-overlapping occurrence of `pat` from `s`, scanning left
to right, exactly as Python's `s.replace(pat, "")` does for a non-empty
`pat`.  `fuel` bounds the recursion; `fuel = s.length` always suffices. -/
def stripAllAux (pat : List Char) : Nat → List Char → List Char
  | 0, s => s
  | _ + 1, [] => []
  | fuel + 1, c :: rest =>
    if pat ≠ [] ∧ pat.isPrefixOf (c :: rest) then
      stripAllAux pat fuel ((c :: rest).drop pat.length)
    else
      c :: stripAllAux pat fuel rest

/-- Python `s.replace(pat, "")` for a non-empty pattern, on strings. -/
def pyReplaceAll (pat : String) (s : String) : String :=
  ⟨stripAllAux pat.data s.data.length s.data⟩

/-- `s.startswith(pat)` from Python, modelled on the underlying character
lists. -/
def pyStartsWith (pat : String) (s : String) : Bool :=
  pat.data.isPrefixOf s.data

/-- The inline OpenAlex ID normalization of `app.py`
(lines 150-151, 160-161, 167-168, 184):
`x.replace("https://openalex.org/", "") if x.startswith("https://openalex.org/") else x`. -/
def oa_normalize (x : String) : String :=
  if pyStartsWith "https://openalex.org/" x then pyReplaceAll "https://openalex.org/" x
  else x

/-- Python truthiness of an optional string field (`if not a_id: continue`):
`none` and the empty string are falsy. -/
def truthyId : Option String → Option String
  | none => none
  | some s => if s = "" then none else some s

/-! ## Data model

OpenAlex works carry an `id` and a list of authorships, each holding an
author record with optional `id` and `display_name` (missing JSON fields
are `none`).  Semantic Scholar papers carry `citationCount`, an `authors`
list and a nested `citations` list, each citation again holding an
`authors` list. -/

/-- An OpenAlex author record (`authorship.get("author", {})`). -/
structure OAAuthor where
  id : Option String
  display_name : Option String
deriving DecidableEq

/-- An OpenAlex authorship entry of a work. -/
structure OAAuthorship where
  author : OAAuthor
deriving DecidableEq

/-- An OpenAlex work: its `id` and its `authorships` list. -/
structure OAWork where
  id : Option String
  authorships : List OAAuthorship
deriving DecidableEq

/-- A Semantic Scholar author record (`authorId`, `name`). -/
structure S2Author where
  authorId : Option String
  name : Option String
deriving DecidableEq

/-- A nested citing paper of a Semantic Scholar paper (`citations.authors`). -/
structure S2Citation where
  authors : List S2Author
deriving DecidableEq

/-- A Semantic Scholar paper with its nested citing papers. -/
structure S2Paper where
  citationCount : Option Nat
  authors : List S2Author
  citations : List S2Citation
deriving DecidableEq

/-- The per-author accumulator value of `author_counts` / `citing_authors`:
`{"name": ..., "count": ..., "id": ...}`. -/
structure CEntry where
  name : Option String
  count : Nat
  id : String
deriving DecidableEq

/-- A row of the result table before the `Category` / `Profile URL` columns
are added: `Author Name`, `Citations`, `Collaborator?`, `Author ID`. -/
structure RowBase where
  name : Option String
  citations : Nat
  collab : String
  author_id : String
deriving DecidableEq

/-- A finished result row, including `Category` and `Profile URL`. -/
structure FinalRow where
  name : Option String
  citations : Nat
  collab : String
  author_id : String
  category : String
  profile_url : String
deriving DecidableEq

/-! ## The counts dictionary

Python dicts hold at most one entry per key, preserve insertion order,
update in place and append new keys at the end; `updCounts` reproduces
exactly the dict manipulation of `app.py` lines 189-192 / 291-294
(increment if present, else insert with count 1). -/

/-- `author_counts[cid]["count"] += 1` if `cid` is a key, else
`author_counts[cid] = {"name": nm, "count": 1, "id": cid}`. -/
def updCounts : List (String × CEntry) → String → Option String → List (String × CEntry)
  | [], cid, nm => [(cid, ⟨nm, 1, cid⟩)]
  | (k, e) :: rest, cid, nm =>
    if k = cid then (k, { e with count := e.count + 1 }) :: rest
    else (k, e) :: updCounts rest cid nm

/-- Dictionary lookup of the count stored for key `x` (0 when absent). -/
def getCount : List (String × CEntry) → String → Nat
  | [], _ => 0
  | (k, e) :: rest, x => if k = x then e.count else getCount rest x

/-- Dictionary lookup of the name stored for key `x`. -/
def getName : List (String × CEntry) → String → Option (Option String)
  | [], _ => none
  | (k, e) :: rest, x => if k = x then some e.name else getName rest x

/-- The keys of the counts dictionary. -/
def dictKeys (m : List (String × CEntry)) : List String := m.map (·.1)

/-- The sum of all stored counts. -/
def countsSum (m : List (String × CEntry)) : Nat := (m.map (·.2.count)).sum

/-! ## OpenAlex aggregation (`oa_process_data`, lines 166-219) -/

/-- One iteration of the inner authorship loop of `oa_process_data`
(lines 177-192): skip falsy IDs, normalize, skip the target when
`exclude_self`, otherwise update the counts dictionary. -/
def oa_accum (tgt : String) (excludeSelf : Bool)
    (m : List (String × CEntry)) (a : OAAuthorship) : List (String × CEntry) :=
  match truthyId a.author.id with
  | none => m
  | some raw =>
    let cleanId := oa_normalize raw
    if excludeSelf && cleanId = tgt then m
    else updCounts m cleanId a.author.display_name

/-- All authorships of a list of works, in processing order. -/
def oaAllAuthorships (works : List OAWork) : List OAAuthorship :=
  (works.map (·.authorships)).flatten

/-- The `author_counts` dictionary built by `oa_process_data` lines 173-192.
The raw target ID is normalized first (lines 167-168). -/
def oa_process_counts (works : List OAWork) (targetRaw : String)
    (excludeSelf : Bool) : List (String × CEntry) :=
  (oaAllAuthorships works).foldl (oa_accum (oa_normalize targetRaw) excludeSelf) []

/-- The `Collaborator?` column and row construction of lines 194-205:
membership in the collaborator set, overridden by `"Self"` for the target. -/
def mkRow (tgt : String) (collabs : List String) (p : String × CEntry) : RowBase :=
  let isCollab := if p.1 ∈ collabs then "Yes" else "No"
  let isCollab := if p.1 = tgt then "Self" else isCollab
  { name := p.2.name, citations := p.2.count, collab := isCollab, author_id := p.1 }

/-- `get_category` (lines 211-214 / 312-315): `Self-Citation` if the row's
ID is the target, else `Co-author` for collaborators, else `Other`. -/
def get_category (tgt : String) (r : RowBase) : String :=
  if r.author_id = tgt then "Self-Citation"
  else if r.collab = "Yes" then "Co-author"
  else "Other"

/-- The descending-by-`Citations` comparison used to model
`df.sort_values(by="Citations", ascending=False)` (tie order among equal
counts is implementation-defined in the source, so any comparison sort is
a faithful model). -/
def rowGE (a b : RowBase) : Prop := b.citations ≤ a.citations

instance : DecidableRel rowGE := fun a b => Nat.decLe b.citations a.citations

instance : IsTotal RowBase rowGE := ⟨fun a b => le_total b.citations a.citations⟩

instance : IsTrans RowBase rowGE := ⟨fun _ _ _ h h' => le_trans h' h⟩

/-- Sort rows by `Citations` in non-increasing order. -/
def sortByCitationsDesc (l : List RowBase) : List RowBase := l.insertionSort rowGE

/-- Attach `Category` and `Profile URL` to a sorted row (lines 216-217 /
317-318); `urlPrefix` is the source-specific profile URL prefix. -/
def attachCategory (tgt urlPrefix : String) (r : RowBase) : FinalRow :=
  { name := r.name, citations := r.citations, collab := r.collab,
    author_id := r.author_id, category := get_category tgt r,
    profile_url := if r.author_id ≠ "" then urlPrefix ++ r.author_id else "" }

/-- Sort by `Citations` descending, truncate to the top 50, then add the
`Category` and `Profile URL` columns (lines 207-217 / 308-318). -/
def finalizeRows (tgt urlPrefix : String) (rows : List RowBase) : List FinalRow :=
  ((sortByCitationsDesc rows).take 50).map (attachCategory tgt urlPrefix)

/-- `oa_process_data(works, target_author_id, collaborator_ids, exclude_self)`:
the full OpenAlex aggregation returning the result table. -/
def oa_process_data (works : List OAWork) (targetRaw : String)
    (collaboratorIds : List String) (excludeSelf : Bool) : List FinalRow :=
  let tgt := oa_normalize targetRaw
  finalizeRows tgt "https://openalex.org/"
    ((oa_process_counts works targetRaw excludeSelf).map (mkRow tgt collaboratorIds))

/-! ## OpenAlex collaborator extraction (`oa_extract_collaborators`,
lines 149-164) -/

/-- Add an element to a set modelled as a duplicate-free list
(`collaborators.add(a_id)`). -/
def setInsert (s : List String) (x : String) : List String :=
  if x ∈ s then s else s ++ [x]

/-- One authorship step of `oa_extract_collaborators` (lines 156-163):
skip falsy IDs, normalize, and add every ID other than the target's. -/
def oaCollabStep (tgt : String) (s : List String) (a : OAAuthorship) : List String :=
  match truthyId a.author.id with
  | none => s
  | some raw =>
    let aId := oa_normalize raw
    if aId ≠ tgt then setInsert s aId else s

/-- `oa_extract_collaborators(author_works, target_author_id)`: every
authorship of every work, normalized, except the target itself. -/
def oa_extract_collaborators (works : List OAWork) (targetRaw : String) : List String :=
  (oaAllAuthorships works).foldl (oaCollabStep (oa_normalize targetRaw)) []

/-! ## Semantic Scholar aggregation (`s2_process_data`, lines 271-320)

One pass over the papers: each paper's own `authors` feed the collaborator
set, each author of each nested citation feeds the `citing_authors`
dictionary.  `str()` on the (string) IDs is the identity and is omitted. -/

/-- One nested-citation author step (lines 283-294). -/
def s2_accum (tgt : String) (excludeSelf : Bool)
    (m : List (String × CEntry)) (a : S2Author) : List (String × CEntry) :=
  match truthyId a.authorId with
  | none => m
  | some aId =>
    if excludeSelf && aId = tgt then m
    else updCounts m aId a.name

/-- One paper-author step of the collaborator collection (lines 277-280). -/
def s2CollabStep (tgt : String) (s : List String) (a : S2Author) : List String :=
  match truthyId a.authorId with
  | none => s
  | some aId => if aId ≠ tgt then setInsert s aId else s

/-- One paper step of the main loop (lines 276-294): collect collaborators
from the paper's authors, then count every author of every citation. -/
def s2_step (tgt : String) (excludeSelf : Bool)
    (st : List String × List (String × CEntry)) (p : S2Paper) :
    List String × List (String × CEntry) :=
  let collabs := p.authors.foldl (s2CollabStep tgt) st.1
  let counts := p.citations.foldl
    (fun m c => c.authors.foldl (s2_accum tgt excludeSelf) m) st.2
  (collabs, counts)

/-- The `(collaborators, citing_authors)` state after the main loop of
`s2_process_data`. -/
def s2_collect (papers : List S2Paper) (tgt : String) (excludeSelf : Bool) :
    List String × List (String × CEntry) :=
  papers.foldl (s2_step tgt excludeSelf) ([], [])

/-- The collaborator set built inside `s2_process_data` (lines 276-280):
authors of the *supplied* papers only. -/
def s2_collaborators (papers : List S2Paper) (tgt : String) : List String :=
  (s2_collect papers tgt false).1

/-- `s2_process_data(papers, target_author_id, exclude_self)`: the result
table and the analyzed-paper count (line 320 returns `df, len(papers)`). -/
def s2_process_data (papers : List S2Paper) (tgt : String)
    (excludeSelf : Bool) : List FinalRow × Nat :=
  let st := s2_collect papers tgt excludeSelf
  (finalizeRows tgt "https://www.semanticscholar.org/author/"
      (st.2.map (mkRow tgt st.1)),
   papers.length)

/-- The descending-by-`citationCount` (default 0) comparison modelling
`s2_papers_raw.sort(key=lambda x: x.get("citationCount", 0), reverse=True)`
at line 547. -/
def paperGE (a b : S2Paper) : Prop := b.citationCount.getD 0 ≤ a.citationCount.getD 0

instance : DecidableRel paperGE :=
  fun a b => Nat.decLe (b.citationCount.getD 0) (a.citationCount.getD 0)

/-- Sort papers by `citationCount` in non-increasing order. -/
def sortPapersDesc (l : List S2Paper) : List S2Paper := l.insertionSort paperGE

/-- The papers actually passed to `s2_process_data` by `main` (lines
547-550): the fetched papers sorted by citation count and sliced to
`fetch_limit`. -/
def s2_analyzed_papers (papersRaw : List S2Paper) (fetchLimit : Nat) : List S2Paper :=
  (sortPapersDesc papersRaw).take fetchLimit

/-! ## Cursor pagination (`oa_get_author_works` lines 74-92,
`oa_get_citing_works` lines 99-147, and the inline citing-works loop of
`main` lines 507-518)

The network is a parameter: `serve i` is the server's answer to the
`i`-th request of a loop, a pair of a results page and an optional
`next_cursor` (Python treats a missing or empty cursor as falsy, which
`truthyId` models).  Loops carry a `fuel` argument; for the capped loops a
concrete fuel is provably sufficient, while the uncapped loop of `main`
exhausts every fuel on an adversarial server. -/

/-- The `while True` loop of `oa_get_author_works` (lines 75-92): stop on
an empty page, a falsy `next_cursor`, or once more than 5000 works have
accumulated; `none` means the loop did not finish within `fuel`
iterations. -/
def oaWorksLoop (serve : Nat → List OAWork × Option String) :
    Nat → Nat → List OAWork → Option (List OAWork)
  | 0, _, _ => none
  | fuel + 1, i, acc =>
    let (results, nextCursor) := serve i
    if results = [] then some acc
    else
      let acc2 := acc ++ results
      match truthyId nextCursor with
      | none => some acc2
      | some _ =>
        if 5000 < acc2.length then some acc2
        else oaWorksLoop serve fuel (i + 1) acc2

/-- `oa_get_author_works`: run the paginated loop from an empty
accumulator.  Fuel 5001 is enough (proved in `oaWorksLoop_terminates`). -/
def oa_get_author_works (serve : Nat → List OAWork × Option String) : List OAWork :=
  (oaWorksLoop serve 5001 0 []).getD []

/-- `[work_ids[i:i + batch_size] for i in range(0, len(work_ids), batch_size)]`
with `batch_size = 25` (line 113). -/
def chunkIdsAux : Nat → List String → List (List String)
  | 0, _ => []
  | _ + 1, [] => []
  | fuel + 1, x :: rest => ((x :: rest).take 25) :: chunkIdsAux fuel ((x :: rest).drop 25)

/-- Partition a list of work IDs into batches of 25. -/
def chunkIds (l : List String) : List (List String) := chunkIdsAux l.length l

/-- The inner `while len(collected_works) < max_works` loop of
`oa_get_citing_works` (lines 128-145): request pages for one chunk until
the page is empty, the cursor is falsy, or the accumulated total reaches
`maxWorks`.  Each iteration appends at least one work, so fuel
`maxWorks + 1` is enough for the loop to run to its real exit. -/
def citeChunkLoop (serve : List String → Nat → List OAWork × Option String)
    (chunk : List String) (maxWorks : Nat) :
    Nat → Nat → List OAWork → List OAWork
  | 0, _, acc => acc
  | fuel + 1, i, acc =>
    if acc.length < maxWorks then
      let (results, nextCursor) := serve chunk i
      if results = [] then acc
      else
        let acc2 := acc ++ results
        match truthyId nextCursor with
        | none => acc2
        | some _ => citeChunkLoop serve chunk maxWorks fuel (i + 1) acc2
    else acc

/-- The outer `for chunk in chunked_ids` loop (lines 117-143), breaking as
soon as the collected total has reached `maxWorks`. -/
def citeChunksLoop (serve : List String → Nat → List OAWork × Option String)
    (maxWorks : Nat) : List (List String) → List OAWork → List OAWork
  | [], acc => acc
  | chunk :: rest, acc =>
    if maxWorks ≤ acc.length then acc
    else citeChunksLoop serve maxWorks rest
      (citeChunkLoop serve chunk maxWorks (maxWorks + 1) 0 acc)

/-- `oa_get_citing_works(target_author_id, max_works)` (lines 99-147):
fetch the author's works, strip the URL prefix from their IDs
(line 107 calls `replace` unconditionally), chunk them, run the capped
per-chunk pagination, and return `collected_works[:max_works]`. -/
def oa_get_citing_works (worksServe : Nat → List OAWork × Option String)
    (citesServe : List String → Nat → List OAWork × Option String)
    (maxWorks : Nat) : List OAWork :=
  let authorWorks := oa_get_author_works worksServe
  if authorWorks = [] then []
  else
    let workIds := (authorWorks.filter (fun w => (truthyId w.id).isSome)).map
      (fun w => pyReplaceAll "https://openalex.org/" (w.id.getD ""))
    if workIds = [] then []
    else (citeChunksLoop citesServe maxWorks (chunkIds workIds) []).take maxWorks

/-- The inline `while True` citing-works loop of `main` (lines 507-518).
Unlike `oa_get_author_works` and `oa_get_citing_works` it has *no*
accumulated-size cap: it stops only on an empty page, a falsy cursor, or
a request error.  `none` means the loop has not finished within `fuel`
iterations. -/
def mainCiteLoop (serve : Nat → List OAWork × Option String) :
    Nat → Nat → List OAWork → Option (List OAWork)
  | 0, _, _ => none
  | fuel + 1, i, acc =>
    let (results, nextCursor) := serve i
    if results = [] then some acc
    else
      match truthyId nextCursor with
      | none => some (acc ++ results)
      | some _ => mainCiteLoop serve fuel (i + 1) (acc ++ results)

/-! ## Adapter calls and rate-limit handling (`oa_search_authors` lines
17-56, `s2_search_authors` lines 226-254, `s2_get_data` lines 256-269)

An HTTP response is a status code plus a parsed body; `raise_for_status`
raises exactly when the status is at least 400.  A call is summarised by
the produced result, the number of requests issued, and the list of
`time.sleep` delays performed. -/

/-- A parsed HTTP response. -/
structure HttpResp (α : Type) where
  status : Nat
  body : α
deriving DecidableEq

/-- The observable outcome of one adapter call: result, number of HTTP
requests issued, and the `time.sleep` delays (in seconds) performed. -/
structure CallTrace (α : Type) where
  result : α
  requests : Nat
  sleeps : List Nat
deriving DecidableEq

/-- The rate-limit pattern shared verbatim by `s2_search_authors`
(lines 230-234) and `s2_get_data` (lines 261-265): issue the request; on
status 429 sleep `delay` seconds and issue it once more; then
`raise_for_status` (result `none`) on any status ≥ 400. -/
def s2RetryFetch {α : Type} (serve : Nat → HttpResp α) (delay : Nat) :
    CallTrace (Option α) :=
  let r0 := serve 0
  if r0.status = 429 then
    let r1 := serve 1
    if 400 ≤ r1.status then ⟨none, 2, [delay]⟩ else ⟨some r1.body, 2, [delay]⟩
  else if 400 ≤ r0.status then ⟨none, 1, []⟩
  else ⟨some r0.body, 1, []⟩

/-- A Semantic Scholar search record. -/
structure S2SearchRec where
  name : Option String
  affiliations : List String
  citationCount : Option Nat
  authorId : Option String
deriving DecidableEq

/-- A structured search candidate (both sources). -/
structure Candidate where
  display : String
  id : Option String
  name : String
  citation_count : Nat
deriving DecidableEq

/-- Build one Semantic Scholar candidate (lines 239-249). -/
def s2BuildCandidate (a : S2SearchRec) : Candidate :=
  let name := a.name.getD "Unknown"
  let affiliation := a.affiliations.head?.getD "Unknown"
  let cc := a.citationCount.getD 0
  { display := name ++ " (" ++ affiliation ++ ") - " ++ toString cc ++ " citations",
    id := a.authorId, name := name, citation_count := cc }

/-- The descending-by-`citation_count` comparison modelling the sort at
line 250. -/
def candGE (a b : Candidate) : Prop := b.citation_count ≤ a.citation_count

instance : DecidableRel candGE :=
  fun a b => Nat.decLe b.citation_count a.citation_count

/-- Sort candidates by `citation_count` in non-increasing order. -/
def sortCandDesc (l : List Candidate) : List Candidate := l.insertionSort candGE

/-- `s2_search_authors(query)` over a server model: empty query short-cuts
to an empty list with no request; a 429 is retried once after a 2-second
sleep; any remaining failure is caught and yields an empty list. -/
def s2_search_authors (serve : Nat → HttpResp (List S2SearchRec))
    (query : String) : CallTrace (List Candidate) :=
  if query = "" then ⟨[], 0, []⟩
  else
    let t := s2RetryFetch serve 2
    match t.result with
    | none => ⟨[], t.requests, t.sleeps⟩
    | some body => ⟨sortCandDesc (body.map s2BuildCandidate), t.requests, t.sleeps⟩

/-- `s2_get_data(author_id, limit)` over a server model: a 429 is retried
once after a 5-second sleep; any remaining failure yields an empty list. -/
def s2_get_data (serve : Nat → HttpResp (List S2Paper)) :
    CallTrace (List S2Paper) :=
  let t := s2RetryFetch serve 5
  match t.result with
  | none => ⟨[], t.requests, t.sleeps⟩
  | some body => ⟨body, t.requests, t.sleeps⟩

/-- An institution record of an OpenAlex search result. -/
structure OAInstitution where
  display_name : Option String
deriving DecidableEq

/-- An affiliation entry of an OpenAlex search result. -/
structure OAAffiliation where
  institution : OAInstitution
deriving DecidableEq

/-- An OpenAlex author-search record. -/
structure OASearchRec where
  display_name : Option String
  last_known_institution : Option OAInstitution
  affiliations : List OAAffiliation
  cited_by_count : Option Nat
  id : Option String
deriving DecidableEq

/-- Build one OpenAlex candidate (lines 33-52): affiliation priority is
`last_known_institution`, then the first `affiliations` entry, then
`"Unknown"`. -/
def oaBuildCandidate (a : OASearchRec) : Candidate :=
  let name := a.display_name.getD "Unknown"
  let affiliation :=
    match a.last_known_institution with
    | some lk => lk.display_name.getD "Unknown"
    | none =>
      match a.affiliations.head? with
      | some aff => aff.institution.display_name.getD "Unknown"
      | none => "Unknown"
  let cc := a.cited_by_count.getD 0
  { display := name ++ " (" ++ affiliation ++ ") - " ++ toString cc ++ " citations",
    id := a.id, name := name, citation_count := cc }

/-- `oa_search_authors(query)` over a server model (lines 17-56): a single
request with *no* rate-limit retry; any failure (429 included, since
`raise_for_status` treats it as an HTTP error) is caught and yields an
empty list. -/
def oa_search_authors (serve : Nat → HttpResp (List OASearchRec))
    (query : String) : CallTrace (List Candidate) :=
  if query = "" then ⟨[], 0, []⟩
  else
    let r0 := serve 0
    if 400 ≤ r0.status then ⟨[], 1, []⟩
    else ⟨r0.body.map oaBuildCandidate, 1, []⟩

/-! ## Claim-side characterizations

Executable definitions formalizing the vocabulary of the claims
(processed authorship pairs, self-authorships, per-ID multiplicity,
first/most-recently seen names, distinct citing works). -/

/-- Whether an authorship carries a truthy author ID — i.e. whether the
aggregation loop processes it past the `if not a_id: continue` guard. -/
def oaHasId (a : OAAuthorship) : Bool := (truthyId a.author.id).isSome

/-- Whether an authorship's normalized author ID equals `x`. -/
def oaIdMatches (x : String) (a : OAAuthorship) : Bool :=
  match truthyId a.author.id with
  | none => false
  | some raw => oa_normalize raw = x

/-- The number of (work, authorship) pairs the OpenAlex aggregation
processes (those with a truthy author ID). -/
def oaProcessedPairs (works : List OAWork) : Nat :=
  (oaAllAuthorships works).countP oaHasId

/-- The number of processed self-authorships: pairs whose normalized author
ID equals the (normalized) target ID. -/
def oaSelfPairs (works : List OAWork) (tgt : String) : Nat :=
  (oaAllAuthorships works).countP (oaIdMatches tgt)

/-- What one authorship adds to the total of all stored counts. -/
def oaContrib (tgt : String) (ex : Bool) (a : OAAuthorship) : Nat :=
  match truthyId a.author.id with
  | none => 0
  | some raw => if ex && oa_normalize raw = tgt then 0 else 1

/-- What one authorship adds to the count stored under key `x`. -/
def oaCountContrib (tgt : String) (ex : Bool) (x : String) (a : OAAuthorship) : Nat :=
  match truthyId a.author.id with
  | none => 0
  | some raw =>
    if ex && oa_normalize raw = tgt then 0
    else if oa_normalize raw = x then 1
    else 0

/-- The display name an authorship contributes for key `x` (is `some _`
exactly when the authorship is processed, not excluded, and normalizes to
`x`). -/
def oaNameContrib (tgt : String) (ex : Bool) (x : String) (a : OAAuthorship) :
    Option (Option String) :=
  match truthyId a.author.id with
  | none => none
  | some raw =>
    if ex && oa_normalize raw = tgt then none
    else if oa_normalize raw = x then some a.author.display_name
    else none

/-- The display name attached to the *first* processed, non-excluded
authorship whose normalized ID is `x`. -/
def oaFirstName (tgt : String) (ex : Bool) (l : List OAAuthorship) (x : String) :
    Option (Option String) :=
  l.findSome? (oaNameContrib tgt ex x)

/-- The display name attached to the *last* processed, non-excluded
authorship whose normalized ID is `x` — the claim's "most recently seen
display name". -/
def oaLastName (tgt : String) (ex : Bool) (l : List OAAuthorship) (x : String) :
    Option (Option String) :=
  l.reverse.findSome? (oaNameContrib tgt ex x)

/-- The number of distinct citing works in the input that include an author
with normalized ID `x` — the quantity the claim says `count` equals
(follows the claim's words, for comparison with the code's behaviour). -/
def oaDistinctWorksWithAuthor (works : List OAWork) (x : String) : Nat :=
  works.countP (fun w => w.authorships.any (oaIdMatches x))

/-- Whether a Semantic Scholar author record carries a truthy ID. -/
def s2HasId (a : S2Author) : Bool := (truthyId a.authorId).isSome

/-- Whether a Semantic Scholar author record's ID equals `x`. -/
def s2IdMatches (x : String) (a : S2Author) : Bool :=
  match truthyId a.authorId with
  | none => false
  | some aId => aId = x

/-- All citing authors of a list of papers, in processing order:
paper by paper, citation by citation, author by author. -/
def s2AllCitingAuthors (papers : List S2Paper) : List S2Author :=
  (papers.map (fun p => (p.citations.map (·.authors)).flatten)).flatten

/-- All own authors of a list of papers, in processing order. -/
def s2AllPaperAuthors (papers : List S2Paper) : List S2Author :=
  (papers.map (·.authors)).flatten

/-- The number of (paper, citation, author) pairs the Semantic Scholar
aggregation processes. -/
def s2ProcessedPairs (papers : List S2Paper) : Nat :=
  (s2AllCitingAuthors papers).countP s2HasId

/-- The number of processed self-authorships among the citing authors. -/
def s2SelfPairs (papers : List S2Paper) (tgt : String) : Nat :=
  (s2AllCitingAuthors papers).countP (s2IdMatches tgt)

/-- What one citing author adds to the total of all stored counts. -/
def s2Contrib (tgt : String) (ex : Bool) (a : S2Author) : Nat :=
  match truthyId a.authorId with
  | none => 0
  | some aId => if ex && aId = tgt then 0 else 1

/-- What one citing author adds to the count stored under key `x`. -/
def s2CountContrib (tgt : String) (ex : Bool) (x : String) (a : S2Author) : Nat :=
  match truthyId a.authorId with
  | none => 0
  | some aId =>
    if ex && aId = tgt then 0
    else if aId = x then 1
    else 0

/-- The name a citing author contributes for key `x`. -/
def s2NameContrib (tgt : String) (ex : Bool) (x : String) (a : S2Author) :
    Option (Option String) :=
  match truthyId a.authorId with
  | none => none
  | some aId =>
    if ex && aId = tgt then none
    else if aId = x then some a.name
    else none

/-! ## Concrete instances for counterexamples and witnesses -/

/-- A single-author OpenAlex work, used to build batches. -/
def cWork (i : Nat) : OAWork :=
  { id := some ("https://openalex.org/W" ++ toString i),
    authorships := [⟨⟨some ("A" ++ toString i), some ("Author " ++ toString i)⟩⟩] }

/-- 51 citing works by 51 distinct authors. -/
def cWorks51 : List OAWork := (List.range 51).map cWork

/-- One citing work listing the same author twice in its authorship list. -/
def cDupAuthWork : OAWork :=
  { id := some "https://openalex.org/W1",
    authorships := [⟨⟨some "https://openalex.org/A1", some "Alice"⟩⟩,
                    ⟨⟨some "https://openalex.org/A1", some "Alice"⟩⟩] }

/-- Two citing works with the same author under two display names. -/
def cNameWork1 : OAWork :=
  { id := some "https://openalex.org/W1",
    authorships := [⟨⟨some "https://openalex.org/A1", some "A. Lovelace"⟩⟩] }

/-- Second sighting of the same author, under a newer display name. -/
def cNameWork2 : OAWork :=
  { id := some "https://openalex.org/W2",
    authorships := [⟨⟨some "https://openalex.org/A1", some "Ada Lovelace"⟩⟩] }

/-- The target's most-cited paper: solo-authored, no nested citations. -/
def cPaperHigh : S2Paper :=
  { citationCount := some 5, authors := [⟨some "T", some "Target"⟩], citations := [] }

/-- A low-cited paper co-authored with collaborator `"X"`. -/
def cPaperLow : S2Paper :=
  { citationCount := some 1,
    authors := [⟨some "T", some "Target"⟩, ⟨some "X", some "Xavier"⟩],
    citations := [] }

/-- A server that answers every request with a non-empty page and a
repeated cursor. -/
def cAdvServe : Nat → List OAWork × Option String :=
  fun _ => ([{ id := some "https://openalex.org/W9", authorships := [] }], some "cursor")

/-- An OpenAlex author-search record for the retry scenario. -/
def cOARec : OASearchRec :=
  { display_name := some "Ada", last_known_institution := none,
    affiliations := [], cited_by_count := some 3,
    id := some "https://openalex.org/A9" }

/-- A search server that rate-limits the first request and succeeds on the
second. -/
def cOAServe : Nat → HttpResp (List OASearchRec) :=
  fun i => if i = 0 then ⟨429, [cOARec]⟩ else ⟨200, [cOARec]⟩

/-- A Semantic Scholar search server that always rate-limits. -/
def cS2SearchServe : Nat → HttpResp (List S2SearchRec) := fun _ => ⟨429, []⟩

/-- A Semantic Scholar paper server that always rate-limits. -/
def cS2PaperServe : Nat → HttpResp (List S2Paper) := fun _ => ⟨429, []⟩

/-- An ID on which `oa_normalize` is not idempotent: deleting every
occurrence of the URL prefix re-creates the prefix from the leftover
characters. -/
def cBadId : String :=
  "https://openalex.org/" ++ "h" ++ "https://openalex.org/" ++ "ttps://openalex.org/"

/-- A one-work batch whose only author is not the target. -/
def cOtherWork : OAWork :=
  { id := some "https://openalex.org/W3",
    authorships := [⟨⟨some "https://openalex.org/A7", some "Grace"⟩⟩] }

/-! ## Dictionary lemmas -/

theorem countsSum_updCounts (m : List (String × CEntry)) (cid : String)
    (nm : Option String) : countsSum (updCounts m cid nm) = countsSum m + 1 := by
  induction m with
  | nil => simp [updCounts, countsSum]
  | cons p rest ih =>
    obtain ⟨k, e⟩ := p
    by_cases h : k = cid
    · simp [updCounts, h, countsSum]
      omega
    · simp [updCounts, h, countsSum] at ih ⊢
      omega

theorem getCount_updCounts (m : List (String × CEntry)) (cid x : String)
    (nm : Option String) :
    getCount (updCounts m cid nm) x = getCount m x + (if cid = x then 1 else 0) := by
  induction m with
  | nil =>
    by_cases h : cid = x <;> simp [updCounts, getCount, h]
  | cons p rest ih =>
    obtain ⟨k, e⟩ := p
    by_cases hk : k = cid
    · subst hk
      by_cases hx : k = x
      · simp [updCounts, getCount, hx]
      · simp [updCounts, getCount, hx]
    · by_cases hx : k = x
      · subst hx
        have h1 : ¬ k = cid := hk
        have h2 : ¬ cid = k := fun h => hk h.symm
        simp [updCounts, getCount, h1, h2]
      · simp [updCounts, getCount, hk, hx, ih]

theorem getName_updCounts (m : List (String × CEntry)) (cid x : String)
    (nm : Option String) :
    getName (updCounts m cid nm) x =
      match getName m x with
      | some v => some v
      | none => if cid = x then some nm else none := by
  induction m with
  | nil =>
    by_cases h : cid = x <;> simp [updCounts, getName, h]
  | cons p rest ih =>
    obtain ⟨k, e⟩ := p
    by_cases hk : k = cid
    · subst hk
      by_cases hx : k = x
      · simp [updCounts, getName, hx]
      · simp only [updCounts, if_pos rfl, getName, if_neg hx]
        cases h : getName rest x <;> simp [h]
    · by_cases hx : k = x
      · subst hx
        have h1 : ¬ k = cid := hk
        simp [updCounts, getName, h1]
      · simp [updCounts, getName, hk, hx, ih]

theorem dictKeys_updCounts (m : List (String × CEntry)) (cid x : String)
    (nm : Option String) (hx : x ∈ dictKeys (updCounts m cid nm)) :
    x ∈ dictKeys m ∨ x = cid := by
  induction m with
  | nil =>
    simp [updCounts, dictKeys] at hx
    exact Or.inr hx
  | cons p rest ih =>
    obtain ⟨k, e⟩ := p
    by_cases hk : k = cid
    · simp [updCounts, hk, dictKeys] at hx ⊢
      tauto
    · simp [updCounts, hk, dictKeys] at hx ⊢
      rcases hx with h | h
      · tauto
      · rcases ih (by simpa [dictKeys] using h) with h' | h'
        · simp [dictKeys] at h'
          tauto
        · tauto

theorem mem_setInsert (s : List String) (x y : String) :
    y ∈ setInsert s x ↔ y ∈ s ∨ y = x := by
  by_cases h : x ∈ s
  · simp only [setInsert, if_pos h]
    constructor
    · exact Or.inl
    · rintro (hy | rfl) <;> [exact hy; exact h]
  · simp [setInsert, if_neg h]

/-! ## Generic fold lemmas over the counts dictionary -/

theorem foldl_countsSum {α : Type} (step : List (String × CEntry) → α → List (String × CEntry))
    (contrib : α → Nat)
    (hstep : ∀ m a, countsSum (step m a) = countsSum m + contrib a) :
    ∀ (l : List α) (m : List (String × CEntry)),
      countsSum (l.foldl step m) = countsSum m + (l.map contrib).sum := by
  intro l
  induction l with
  | nil => intro m; simp
  | cons a l ih =>
    intro m
    simp only [List.foldl_cons, List.map_cons, List.sum_cons]
    rw [ih, hstep]
    omega

theorem foldl_getCount {α : Type} (step : List (String × CEntry) → α → List (String × CEntry))
    (x : String) (δ : α → Nat)
    (hstep : ∀ m a, getCount (step m a) x = getCount m x + δ a) :
    ∀ (l : List α) (m : List (String × CEntry)),
      getCount (l.foldl step m) x = getCount m x + (l.map δ).sum := by
  intro l
  induction l with
  | nil => intro m; simp
  | cons a l ih =>
    intro m
    simp only [List.foldl_cons, List.map_cons, List.sum_cons]
    rw [ih, hstep]
    omega

theorem foldl_getName {α : Type} (step : List (String × CEntry) → α → List (String × CEntry))
    (x : String) (ν : α → Option (Option String))
    (hstep : ∀ m a, getName (step m a) x =
      match getName m x with
      | some v => some v
      | none => ν a) :
    ∀ (l : List α) (m : List (String × CEntry)),
      getName (l.foldl step m) x =
        match getName m x with
        | some v => some v
        | none => l.findSome? ν := by
  intro l
  induction l with
  | nil =>
    intro m
    cases h : getName m x <;> simp [h]
  | cons a l ih =>
    intro m
    simp only [List.foldl_cons]
    rw [ih, hstep]
    cases h : getName m x with
    | some v => simp
    | none =>
      cases ha : ν a with
      | some w => simp [List.findSome?_cons, ha]
      | none => simp [List.findSome?_cons, ha]

theorem sum_map_indicator_eq_countP {α : Type} (p : α → Bool) (l : List α) :
    (l.map (fun a => if p a then 1 else 0)).sum = l.countP p := by
  induction l with
  | nil => simp
  | cons a l ih =>
    by_cases h : p a
    · simp [List.countP_cons, h, ih]
      omega
    · simp [List.countP_cons, h, ih]

/-! ## Per-step lemmas for the two aggregation bodies -/

theorem countsSum_oa_accum (tgt : String) (ex : Bool)
    (m : List (String × CEntry)) (a : OAAuthorship) :
    countsSum (oa_accum tgt ex m a) = countsSum m + oaContrib tgt ex a := by
  unfold oa_accum oaContrib
  cases h : truthyId a.author.id with
  | none => simp
  | some raw =>
    dsimp only
    split
    · simp
    · rw [countsSum_updCounts]

theorem getCount_oa_accum (tgt : String) (ex : Bool) (x : String)
    (m : List (String × CEntry)) (a : OAAuthorship) :
    getCount (oa_accum tgt ex m a) x = getCount m x + oaCountContrib tgt ex x a := by
  unfold oa_accum oaCountContrib
  cases h : truthyId a.author.id with
  | none => simp
  | some raw =>
    dsimp only
    split
    · simp
    · rw [getCount_updCounts]

theorem getName_oa_accum (tgt : String) (ex : Bool) (x : String)
    (m : List (String × CEntry)) (a : OAAuthorship) :
    getName (oa_accum tgt ex m a) x =
      match getName m x with
      | some v => some v
      | none => oaNameContrib tgt ex x a := by
  unfold oa_accum oaNameContrib
  cases h : truthyId a.author.id with
  | none => cases hm : getName m x <;> simp [hm]
  | some raw =>
    dsimp only
    split
    · cases hm : getName m x <;> simp [hm]
    · rw [getName_updCounts]

theorem countsSum_s2_accum (tgt : String) (ex : Bool)
    (m : List (String × CEntry)) (a : S2Author) :
    countsSum (s2_accum tgt ex m a) = countsSum m + s2Contrib tgt ex a := by
  unfold s2_accum s2Contrib
  cases h : truthyId a.authorId with
  | none => simp
  | some aId =>
    dsimp only
    split
    · simp
    · rw [countsSum_updCounts]

theorem getCount_s2_accum (tgt : String) (ex : Bool) (x : String)
    (m : List (String × CEntry)) (a : S2Author) :
    getCount (s2_accum tgt ex m a) x = getCount m x + s2CountContrib tgt ex x a := by
  unfold s2_accum s2CountContrib
  cases h : truthyId a.authorId with
  | none => simp
  | some aId =>
    dsimp only
    split
    · simp
    · rw [getCount_updCounts]

theorem getName_s2_accum (tgt : String) (ex : Bool) (x : String)
    (m : List (String × CEntry)) (a : S2Author) :
    getName (s2_accum tgt ex m a) x =
      match getName m x with
      | some v => some v
      | none => s2NameContrib tgt ex x a := by
  unfold s2_accum s2NameContrib
  cases h : truthyId a.authorId with
  | none => cases hm : getName m x <;> simp [hm]
  | some aId =>
    dsimp only
    split
    · cases hm : getName m x <;> simp [hm]
    · rw [getName_updCounts]

/-! ## Projections of the Semantic Scholar fold -/

theorem s2_collect_counts (tgt : String) (ex : Bool) :
    ∀ (papers : List S2Paper) (cs : List String) (m : List (String × CEntry)),
      (papers.foldl (s2_step tgt ex) (cs, m)).2 =
        (s2AllCitingAuthors papers).foldl (s2_accum tgt ex) m := by
  intro papers
  induction papers with
  | nil => intro cs m; simp [s2AllCitingAuthors]
  | cons p rest ih =>
    intro cs m
    simp only [List.foldl_cons, s2_step]
    rw [ih]
    simp only [s2AllCitingAuthors, List.map_cons, List.flatten_cons, List.foldl_append,
      List.foldl_flatten, List.foldl_map]

theorem s2_collect_collabs (tgt : String) (ex : Bool) :
    ∀ (papers : List S2Paper) (cs : List String) (m : List (String × CEntry)),
      (papers.foldl (s2_step tgt ex) (cs, m)).1 =
        (s2AllPaperAuthors papers).foldl (s2CollabStep tgt) cs := by
  intro papers
  induction papers with
  | nil => intro cs m; simp [s2AllPaperAuthors]
  | cons p rest ih =>
    intro cs m
    simp only [List.foldl_cons, s2_step]
    rw [ih]
    simp only [s2AllPaperAuthors, List.map_cons, List.flatten_cons, List.foldl_append]

/-! ## Pointwise contribution arithmetic -/

theorem oaContrib_split (tgt : String) (ex : Bool) (a : OAAuthorship) :
    oaContrib tgt ex a + (if ex then (if oaIdMatches tgt a then 1 else 0) else 0)
      = if oaHasId a then 1 else 0 := by
  unfold oaContrib oaIdMatches oaHasId
  cases h : truthyId a.author.id with
  | none => cases ex <;> simp
  | some raw =>
    cases ex with
    | false => simp
    | true => by_cases he : oa_normalize raw = tgt <;> simp [he]

theorem s2Contrib_split (tgt : String) (ex : Bool) (a : S2Author) :
    s2Contrib tgt ex a + (if ex then (if s2IdMatches tgt a then 1 else 0) else 0)
      = if s2HasId a then 1 else 0 := by
  unfold s2Contrib s2IdMatches s2HasId
  cases h : truthyId a.authorId with
  | none => cases ex <;> simp
  | some aId =>
    cases ex with
    | false => simp
    | true => by_cases he : aId = tgt <;> simp [he]

theorem oa_sum_split_false (tgt : String) (l : List OAAuthorship) :
    (l.map (oaContrib tgt false)).sum = l.countP oaHasId := by
  induction l with
  | nil => simp
  | cons a l ih =>
    have hpt := oaContrib_split tgt false a
    simp only [if_neg Bool.false_ne_true, Nat.add_zero] at hpt
    simp only [List.map_cons, List.sum_cons, List.countP_cons]
    by_cases hh : oaHasId a <;> simp [hh] at hpt ⊢ <;> omega

theorem oa_sum_split_true (tgt : String) (l : List OAAuthorship) :
    (l.map (oaContrib tgt true)).sum + l.countP (oaIdMatches tgt)
      = l.countP oaHasId := by
  induction l with
  | nil => simp
  | cons a l ih =>
    have hpt := oaContrib_split tgt true a
    simp only [if_pos rfl] at hpt
    simp only [List.map_cons, List.sum_cons, List.countP_cons]
    by_cases hh : oaHasId a <;> by_cases hm : oaIdMatches tgt a <;>
      simp [hh, hm] at hpt ⊢ <;> omega

theorem s2_sum_split_false (tgt : String) (l : List S2Author) :
    (l.map (s2Contrib tgt false)).sum = l.countP s2HasId := by
  induction l with
  | nil => simp
  | cons a l ih =>
    have hpt := s2Contrib_split tgt false a
    simp only [if_neg Bool.false_ne_true, Nat.add_zero] at hpt
    simp only [List.map_cons, List.sum_cons, List.countP_cons]
    by_cases hh : s2HasId a <;> simp [hh] at hpt ⊢ <;> omega

theorem s2_sum_split_true (tgt : String) (l : List S2Author) :
    (l.map (s2Contrib tgt true)).sum + l.countP (s2IdMatches tgt)
      = l.countP s2HasId := by
  induction l with
  | nil => simp
  | cons a l ih =>
    have hpt := s2Contrib_split tgt true a
    simp only [if_pos rfl] at hpt
    simp only [List.map_cons, List.sum_cons, List.countP_cons]
    by_cases hh : s2HasId a <;> by_cases hm : s2IdMatches tgt a <;>
      simp [hh, hm] at hpt ⊢ <;> omega

theorem oaCountContrib_eq_indicator (tgt x : String) (ex : Bool) (a : OAAuthorship)
    (hc : ¬ (ex = true ∧ x = tgt)) :
    oaCountContrib tgt ex x a = if oaIdMatches x a then 1 else 0 := by
  unfold oaCountContrib oaIdMatches
  cases h : truthyId a.author.id with
  | none => simp
  | some raw =>
    cases ex with
    | false => simp
    | true =>
      have hx : ¬ x = tgt := fun hxx => hc ⟨rfl, hxx⟩
      by_cases he : oa_normalize raw = tgt
      · have hnx : ¬ oa_normalize raw = x := fun hh => hx (hh.symm.trans he)
        have htx : ¬ tgt = x := fun hh => hx hh.symm
        simp [he, hnx, htx]
      · simp [he]

theorem oaCountContrib_zero (tgt : String) (a : OAAuthorship) :
    oaCountContrib tgt true tgt a = 0 := by
  unfold oaCountContrib
  cases h : truthyId a.author.id with
  | none => rfl
  | some raw => by_cases he : oa_normalize raw = tgt <;> simp [he]

theorem s2CountContrib_eq_indicator (tgt x : String) (ex : Bool) (a : S2Author)
    (hc : ¬ (ex = true ∧ x = tgt)) :
    s2CountContrib tgt ex x a = if s2IdMatches x a then 1 else 0 := by
  unfold s2CountContrib s2IdMatches
  cases h : truthyId a.authorId with
  | none => simp
  | some aId =>
    cases ex with
    | false => simp
    | true =>
      have hx : ¬ x = tgt := fun hxx => hc ⟨rfl, hxx⟩
      by_cases he : aId = tgt
      · have hnx : ¬ aId = x := fun hh => hx (hh.symm.trans he)
        have htx : ¬ tgt = x := fun hh => hx hh.symm
        simp [he, hnx, htx]
      · simp [he]

theorem s2CountContrib_zero (tgt : String) (a : S2Author) :
    s2CountContrib tgt true tgt a = 0 := by
  unfold s2CountContrib
  cases h : truthyId a.authorId with
  | none => rfl
  | some aId => by_cases he : aId = tgt <;> simp [he]

/-! ## Claims C1, C2, C9: aggregation counting semantics -/

/-- Claim C1 (amended): over the *un-truncated* counts table, the sum of
all per-author counts plus (when `excludeSelf`) the number of processed
self-authorships equals the number of processed (work, authorship) pairs —
for both `oa_process_data`'s and `s2_process_data`'s accumulators. -/
theorem counts_sum_balance :
    (∀ (works : List OAWork) (targetRaw : String) (ex : Bool),
      countsSum (oa_process_counts works targetRaw ex)
        + (if ex then oaSelfPairs works (oa_normalize targetRaw) else 0)
        = oaProcessedPairs works)
    ∧ (∀ (papers : List S2Paper) (tgt : String) (ex : Bool),
      countsSum ((s2_collect papers tgt ex).2)
        + (if ex then s2SelfPairs papers tgt else 0)
        = s2ProcessedPairs papers) := by
  constructor
  · intro works targetRaw ex
    rw [oa_process_counts,
      foldl_countsSum _ _ (countsSum_oa_accum (oa_normalize targetRaw) ex)]
    simp only [countsSum, List.map_nil, List.sum_nil, Nat.zero_add]
    cases ex with
    | false =>
      simpa [oaProcessedPairs] using
        oa_sum_split_false (oa_normalize targetRaw) (oaAllAuthorships works)
    | true =>
      simpa [oaProcessedPairs, oaSelfPairs] using
        oa_sum_split_true (oa_normalize targetRaw) (oaAllAuthorships works)
  · intro papers tgt ex
    rw [s2_collect, s2_collect_counts,
      foldl_countsSum _ _ (countsSum_s2_accum tgt ex)]
    simp only [countsSum, List.map_nil, List.sum_nil, Nat.zero_add]
    cases ex with
    | false =>
      simpa [s2ProcessedPairs] using s2_sum_split_false tgt (s2AllCitingAuthors papers)
    | true =>
      simpa [s2ProcessedPairs, s2SelfPairs] using
        s2_sum_split_true tgt (s2AllCitingAuthors papers)

/-- Claim C1 counterexample: with 51 citing works by 51 distinct authors
(and no self-authorships) the *returned* result table sums to 50, not 51 —
the top-50 truncation makes the claim false for the table
`oa_process_data` actually returns. -/
theorem counts_sum_truncation_counterexample :
    ((oa_process_data cWorks51 "T" [] false).map (fun r => r.citations)).sum = 50
      ∧ oaProcessedPairs cWorks51 = 51
      ∧ oaSelfPairs cWorks51 (oa_normalize "T") = 0 := by decide

/-- Claim C2 (amended): the count stored for an author ID is the number of
processed (work, authorship) pairs whose normalized ID equals it — i.e.
multiplicity within one work's authorship list and repeated works each
increment it (and it is 0 for the target when `excludeSelf`). -/
theorem per_author_count_multiplicity :
    (∀ (works : List OAWork) (targetRaw : String) (ex : Bool) (x : String),
      getCount (oa_process_counts works targetRaw ex) x =
        if ex = true ∧ x = oa_normalize targetRaw then 0
        else (oaAllAuthorships works).countP (oaIdMatches x))
    ∧ (∀ (papers : List S2Paper) (tgt : String) (ex : Bool) (x : String),
      getCount ((s2_collect papers tgt ex).2) x =
        if ex = true ∧ x = tgt then 0
        else (s2AllCitingAuthors papers).countP (s2IdMatches x)) := by
  constructor
  · intro works targetRaw ex x
    rw [oa_process_counts,
      foldl_getCount _ x _ (getCount_oa_accum (oa_normalize targetRaw) ex x)]
    simp only [getCount, Nat.zero_add]
    by_cases hc : ex = true ∧ x = oa_normalize targetRaw
    · rw [if_pos hc]
      apply List.sum_eq_zero
      intro n hn
      simp only [List.mem_map] at hn
      obtain ⟨a, _, rfl⟩ := hn
      obtain ⟨he, hx⟩ := hc
      subst he hx
      exact oaCountContrib_zero _ a
    · rw [if_neg hc,
        List.map_congr_left (fun a _ => oaCountContrib_eq_indicator _ x ex a hc)]
      exact sum_map_indicator_eq_countP _ _
  · intro papers tgt ex x
    rw [s2_collect, s2_collect_counts,
      foldl_getCount _ x _ (getCount_s2_accum tgt ex x)]
    simp only [getCount, Nat.zero_add]
    by_cases hc : ex = true ∧ x = tgt
    · rw [if_pos hc]
      apply List.sum_eq_zero
      intro n hn
      simp only [List.mem_map] at hn
      obtain ⟨a, _, rfl⟩ := hn
      obtain ⟨he, hx⟩ := hc
      subst he hx
      exact s2CountContrib_zero _ a
    · rw [if_neg hc,
        List.map_congr_left (fun a _ => s2CountContrib_eq_indicator _ x ex a hc)]
      exact sum_map_indicator_eq_countP _ _

/-- Claim C2 counterexample: one citing work listing the same author twice
yields a count of 2, although only 1 distinct citing work includes that
author — multiplicity within a single authorship list does inflate the
count. -/
theorem per_author_count_duplicate_counterexample :
    ((oa_process_data [cDupAuthWork] "T" [] false).map (fun r => r.citations)) = [2]
      ∧ oaDistinctWorksWithAuthor [cDupAuthWork] "A1" = 1 := by decide

/-- Claim C9 (amended): the display name stored for an author ID is the one
attached to the *first* processed, non-excluded authorship with that
normalized ID — not the most recently seen one — in both accumulators. -/
theorem stored_display_name_first_seen :
    (∀ (works : List OAWork) (targetRaw : String) (ex : Bool) (x : String),
      getName (oa_process_counts works targetRaw ex) x =
        oaFirstName (oa_normalize targetRaw) ex (oaAllAuthorships works) x)
    ∧ (∀ (papers : List S2Paper) (tgt : String) (ex : Bool) (x : String),
      getName ((s2_collect papers tgt ex).2) x =
        (s2AllCitingAuthors papers).findSome? (s2NameContrib tgt ex x)) := by
  constructor
  · intro works targetRaw ex x
    rw [oa_process_counts,
      foldl_getName _ x _ (getName_oa_accum (oa_normalize targetRaw) ex x)]
    simp [getName, oaFirstName]
  · intro papers tgt ex x
    rw [s2_collect, s2_collect_counts,
      foldl_getName _ x _ (getName_s2_accum tgt ex x)]
    simp [getName]

/-- Claim C9 counterexample: the same author appears in two processed works
under the names `"A. Lovelace"` then `"Ada Lovelace"`; the result row keeps
the first name, while the most recently seen name is the second. -/
theorem stored_display_name_counterexample :
    ((oa_process_data [cNameWork1, cNameWork2] "T" [] false).map (fun r => r.name))
        = [some "A. Lovelace"]
      ∧ oaLastName (oa_normalize "T") false (oaAllAuthorships [cNameWork1, cNameWork2]) "A1"
        = some (some "Ada Lovelace") := by decide

/-! ## Claim C3: collaborator extraction -/

theorem mem_oaCollabStep (tgt : String) (s : List String) (a : OAAuthorship) (x : String) :
    x ∈ oaCollabStep tgt s a ↔
      x ∈ s ∨ (x ≠ tgt ∧ ∃ raw, truthyId a.author.id = some raw ∧ oa_normalize raw = x) := by
  unfold oaCollabStep
  cases h : truthyId a.author.id with
  | none => simp
  | some raw =>
    dsimp only
    by_cases hne : oa_normalize raw ≠ tgt
    · rw [if_pos hne, mem_setInsert]
      constructor
      · rintro (hs | rfl)
        · exact Or.inl hs
        · exact Or.inr ⟨hne, raw, rfl, rfl⟩
      · rintro (hs | ⟨hx, raw', hr, hn⟩)
        · exact Or.inl hs
        · injection hr with hr
          subst hr
          exact Or.inr hn.symm
    · rw [if_neg hne]
      push_neg at hne
      constructor
      · exact Or.inl
      · rintro (hs | ⟨hx, raw', hr, hn⟩)
        · exact hs
        · injection hr with hr
          subst hr
          exact absurd (hn ▸ hne) hx

theorem mem_foldl_oaCollabStep (tgt : String) :
    ∀ (l : List OAAuthorship) (s : List String) (x : String),
      x ∈ l.foldl (oaCollabStep tgt) s ↔
        x ∈ s ∨ (x ≠ tgt ∧
          ∃ a ∈ l, ∃ raw, truthyId a.author.id = some raw ∧ oa_normalize raw = x) := by
  intro l
  induction l with
  | nil => intro s x; simp
  | cons a l ih =>
    intro s x
    simp only [List.foldl_cons]
    rw [ih, mem_oaCollabStep]
    constructor
    · rintro ((hs | ⟨hx, raw, hr, hn⟩) | ⟨hx, b, hb, raw, hr, hn⟩)
      · exact Or.inl hs
      · exact Or.inr ⟨hx, a, List.mem_cons_self a l, raw, hr, hn⟩
      · exact Or.inr ⟨hx, b, List.mem_cons_of_mem a hb, raw, hr, hn⟩
    · rintro (hs | ⟨hx, b, hb, raw, hr, hn⟩)
      · exact Or.inl (Or.inl hs)
      · rcases List.mem_cons.mp hb with rfl | hb
        · exact Or.inl (Or.inr ⟨hx, raw, hr, hn⟩)
        · exact Or.inr ⟨hx, b, hb, raw, hr, hn⟩

theorem mem_s2CollabStep (tgt : String) (s : List String) (a : S2Author) (x : String) :
    x ∈ s2CollabStep tgt s a ↔
      x ∈ s ∨ (x ≠ tgt ∧ truthyId a.authorId = some x) := by
  unfold s2CollabStep
  cases h : truthyId a.authorId with
  | none => simp
  | some aId =>
    dsimp only
    by_cases hne : aId ≠ tgt
    · rw [if_pos hne, mem_setInsert]
      constructor
      · rintro (hs | rfl)
        · exact Or.inl hs
        · exact Or.inr ⟨hne, rfl⟩
      · rintro (hs | ⟨hx, hr⟩)
        · exact Or.inl hs
        · injection hr with hr
          exact Or.inr hr.symm
    · rw [if_neg hne]
      push_neg at hne
      constructor
      · exact Or.inl
      · rintro (hs | ⟨hx, hr⟩)
        · exact hs
        · injection hr with hr
          exact absurd (hr ▸ hne) hx

theorem mem_foldl_s2CollabStep (tgt : String) :
    ∀ (l : List S2Author) (s : List String) (x : String),
      x ∈ l.foldl (s2CollabStep tgt) s ↔
        x ∈ s ∨ (x ≠ tgt ∧ ∃ a ∈ l, truthyId a.authorId = some x) := by
  intro l
  induction l with
  | nil => intro s x; simp
  | cons a l ih =>
    intro s x
    simp only [List.foldl_cons]
    rw [ih, mem_s2CollabStep]
    constructor
    · rintro ((hs | ⟨hx, hr⟩) | ⟨hx, b, hb, hr⟩)
      · exact Or.inl hs
      · exact Or.inr ⟨hx, a, List.mem_cons_self a l, hr⟩
      · exact Or.inr ⟨hx, b, List.mem_cons_of_mem a hb, hr⟩
    · rintro (hs | ⟨hx, b, hb, hr⟩)
      · exact Or.inl (Or.inl hs)
      · rcases List.mem_cons.mp hb with rfl | hb
        · exact Or.inl (Or.inr ⟨hx, hr⟩)
        · exact Or.inr ⟨hx, b, hb, hr⟩

/-- Claim C3 (amended): both collaborator extractions visit every
authorship of every *supplied* work/paper and return exactly the set of
(normalized, for OpenAlex) author IDs distinct from the target's; in the
OpenAlex pipeline the extraction runs over the full work history, but in
the Semantic Scholar pipeline it runs only over the top-N analyzed
slice handed to `s2_process_data`. -/
theorem collaborator_extraction_exact :
    (∀ (works : List OAWork) (targetRaw : String) (x : String),
      x ∈ oa_extract_collaborators works targetRaw ↔
        x ≠ oa_normalize targetRaw ∧
          ∃ a ∈ oaAllAuthorships works, ∃ raw,
            truthyId a.author.id = some raw ∧ oa_normalize raw = x)
    ∧ (∀ (papers : List S2Paper) (tgt : String) (x : String),
      x ∈ s2_collaborators papers tgt ↔
        x ≠ tgt ∧ ∃ a ∈ s2AllPaperAuthors papers, truthyId a.authorId = some x) := by
  constructor
  · intro works targetRaw x
    unfold oa_extract_collaborators
    rw [mem_foldl_oaCollabStep]
    simp
  · intro papers tgt x
    unfold s2_collaborators
    rw [s2_collect, s2_collect_collabs, mem_foldl_s2CollabStep]
    simp

/-- Claim C3 counterexample: `main` slices the fetched Semantic Scholar
papers to the top `fetch_limit` *before* calling `s2_process_data`
(lines 547-555), so the collaborator set is derived from the analyzed
subset only: collaborator `"X"`, present only in a low-cited paper, is
missed at `fetch_limit = 1` although the full history contains them. -/
theorem s2_collaborators_truncation_counterexample :
    "X" ∉ s2_collaborators (s2_analyzed_papers [cPaperHigh, cPaperLow] 1) "T"
      ∧ "X" ∈ s2_collaborators [cPaperHigh, cPaperLow] "T"
      ∧ s2_analyzed_papers [cPaperHigh, cPaperLow] 1 = [cPaperHigh] := by decide

/-! ## Claims C5, C6: category assignment and result-table shape -/

theorem dictKeys_oa_accum_true (tgt : String) (m : List (String × CEntry))
    (a : OAAuthorship) (hm : ∀ k ∈ dictKeys m, k ≠ tgt) :
    ∀ k ∈ dictKeys (oa_accum tgt true m a), k ≠ tgt := by
  unfold oa_accum
  cases h : truthyId a.author.id with
  | none => exact hm
  | some raw =>
    dsimp only
    split
    · exact hm
    · next hcond =>
      intro k hk
      rcases dictKeys_updCounts m _ k _ hk with h' | h'
      · exact hm k h'
      · subst h'
        simpa using hcond

theorem dictKeys_foldl_oa_accum_true (tgt : String) :
    ∀ (l : List OAAuthorship) (m : List (String × CEntry)),
      (∀ k ∈ dictKeys m, k ≠ tgt) →
      ∀ k ∈ dictKeys (l.foldl (oa_accum tgt true) m), k ≠ tgt := by
  intro l
  induction l with
  | nil => intro m hm; exact hm
  | cons a l ih =>
    intro m hm
    exact ih _ (dictKeys_oa_accum_true tgt m a hm)

theorem dictKeys_s2_accum_true (tgt : String) (m : List (String × CEntry))
    (a : S2Author) (hm : ∀ k ∈ dictKeys m, k ≠ tgt) :
    ∀ k ∈ dictKeys (s2_accum tgt true m a), k ≠ tgt := by
  unfold s2_accum
  cases h : truthyId a.authorId with
  | none => exact hm
  | some aId =>
    dsimp only
    split
    · exact hm
    · next hcond =>
      intro k hk
      rcases dictKeys_updCounts m _ k _ hk with h' | h'
      · exact hm k h'
      · subst h'
        simpa using hcond

theorem dictKeys_foldl_s2_accum_true (tgt : String) :
    ∀ (l : List S2Author) (m : List (String × CEntry)),
      (∀ k ∈ dictKeys m, k ≠ tgt) →
      ∀ k ∈ dictKeys (l.foldl (s2_accum tgt true) m), k ≠ tgt := by
  intro l
  induction l with
  | nil => intro m hm; exact hm
  | cons a l ih =>
    intro m hm
    exact ih _ (dictKeys_s2_accum_true tgt m a hm)

theorem mem_finalizeRows (tgt url : String) (rows : List RowBase) (r : FinalRow)
    (hr : r ∈ finalizeRows tgt url rows) :
    ∃ b ∈ rows, r = attachCategory tgt url b := by
  unfold finalizeRows at hr
  rcases List.mem_map.mp hr with ⟨b, hb, rfl⟩
  refine ⟨b, ?_, rfl⟩
  have h2 : b ∈ sortByCitationsDesc rows := List.take_subset 50 _ hb
  unfold sortByCitationsDesc at h2
  exact (List.mem_insertionSort rowGE).mp h2

/-- Claim C5: `get_category` is total and mutually exclusive (exactly one
of the three labels, Self-Citation taking precedence over Co-author), and
with `exclude_self = true` no row of either source's result table is
labelled `Self-Citation`. -/
theorem category_assignment_sound :
    (∀ (tgt : String) (r : RowBase),
      (get_category tgt r = "Self-Citation" ∨ get_category tgt r = "Co-author"
        ∨ get_category tgt r = "Other")
      ∧ (r.author_id = tgt → get_category tgt r = "Self-Citation")
      ∧ (r.author_id ≠ tgt → get_category tgt r ≠ "Self-Citation")
      ∧ (get_category tgt r = "Co-author" → r.author_id ≠ tgt ∧ r.collab = "Yes")
      ∧ (get_category tgt r = "Other" → r.author_id ≠ tgt ∧ r.collab ≠ "Yes"))
    ∧ (∀ (works : List OAWork) (targetRaw : String) (collabs : List String) (r : FinalRow),
        r ∈ oa_process_data works targetRaw collabs true → r.category ≠ "Self-Citation")
    ∧ (∀ (papers : List S2Paper) (tgt : String) (r : FinalRow),
        r ∈ (s2_process_data papers tgt true).1 → r.category ≠ "Self-Citation") := by
  refine ⟨?_, ?_, ?_⟩
  · intro tgt r
    unfold get_category
    split_ifs with h1 h2 <;>
      refine ⟨by tauto, ?_, ?_, ?_, ?_⟩ <;> simp_all
  · intro works targetRaw collabs r hr
    unfold oa_process_data at hr
    rcases mem_finalizeRows _ _ _ _ hr with ⟨b, hb, rfl⟩
    rcases List.mem_map.mp hb with ⟨p, hp, rfl⟩
    have hkey : p.1 ∈ dictKeys (oa_process_counts works targetRaw true) :=
      List.mem_map_of_mem (·.1) hp
    have hne : p.1 ≠ oa_normalize targetRaw := by
      refine dictKeys_foldl_oa_accum_true _ _ [] ?_ _ hkey
      intro k hk
      simp [dictKeys] at hk
    have hane : (mkRow (oa_normalize targetRaw) collabs p).author_id
        ≠ oa_normalize targetRaw := hne
    show get_category (oa_normalize targetRaw) (mkRow (oa_normalize targetRaw) collabs p)
      ≠ "Self-Citation"
    unfold get_category
    rw [if_neg hane]
    split_ifs <;> decide
  · intro papers tgt r hr
    unfold s2_process_data at hr
    rcases mem_finalizeRows _ _ _ _ hr with ⟨b, hb, rfl⟩
    rcases List.mem_map.mp hb with ⟨p, hp, rfl⟩
    have hkey : p.1 ∈ dictKeys ((s2_collect papers tgt true).2) :=
      List.mem_map_of_mem (·.1) hp
    rw [s2_collect, s2_collect_counts] at hkey
    have hne : p.1 ≠ tgt := by
      refine dictKeys_foldl_s2_accum_true _ _ [] ?_ _ hkey
      intro k hk
      simp [dictKeys] at hk
    have hane : (mkRow tgt (s2_collect papers tgt true).1 p).author_id ≠ tgt := hne
    show get_category tgt (mkRow tgt (s2_collect papers tgt true).1 p) ≠ "Self-Citation"
    unfold get_category
    rw [if_neg hane]
    split_ifs <;> decide

/-- Claim C5 witness: a concrete `exclude_self` run whose single row is not
a self-citation. -/
theorem category_assignment_sound_witness :
    ({ name := some "Grace", citations := 1, collab := "No", author_id := "A7",
       category := "Other", profile_url := "https://openalex.org/A7" } : FinalRow).category
      ≠ "Self-Citation" :=
  category_assignment_sound.2.1 [cOtherWork] "T" [] _ (by decide)

theorem finalizeRows_length_le (tgt url : String) (rows : List RowBase) :
    (finalizeRows tgt url rows).length ≤ 50 := by
  unfold finalizeRows
  rw [List.length_map]
  simp [List.length_take]

theorem finalizeRows_sorted (tgt url : String) (rows : List RowBase) :
    (finalizeRows tgt url rows).Pairwise
      (fun a b : FinalRow => b.citations ≤ a.citations) := by
  unfold finalizeRows
  have hs : (sortByCitationsDesc rows).Pairwise rowGE := by
    unfold sortByCitationsDesc
    exact List.sorted_insertionSort rowGE rows
  have ht : ((sortByCitationsDesc rows).take 50).Pairwise rowGE :=
    hs.sublist (List.take_sublist 50 _)
  exact ht.map _ (fun a b h => h)

/-- Claim C6: both result tables have at most 50 rows, ordered by the
`Citations` count in non-increasing order. -/
theorem result_rows_bounded_and_sorted :
    (∀ (works : List OAWork) (targetRaw : String) (collabs : List String) (ex : Bool),
      (oa_process_data works targetRaw collabs ex).length ≤ 50
      ∧ (oa_process_data works targetRaw collabs ex).Pairwise
          (fun a b => b.citations ≤ a.citations))
    ∧ (∀ (papers : List S2Paper) (tgt : String) (ex : Bool),
      (s2_process_data papers tgt ex).1.length ≤ 50
      ∧ (s2_process_data papers tgt ex).1.Pairwise
          (fun a b => b.citations ≤ a.citations)) := by
  constructor
  · intro works targetRaw collabs ex
    exact ⟨finalizeRows_length_le _ _ _, finalizeRows_sorted _ _ _⟩
  · intro papers tgt ex
    exact ⟨finalizeRows_length_le _ _ _, finalizeRows_sorted _ _ _⟩

/-! ## Claim C4: pagination termination -/

theorem oaWorksLoop_terminates (serve : Nat → List OAWork × Option String) :
    ∀ (fuel i : Nat) (acc : List OAWork),
      acc.length ≤ 5000 → 5000 < acc.length + fuel →
      oaWorksLoop serve fuel i acc ≠ none := by
  intro fuel
  induction fuel with
  | zero => intro i acc h1 h2; omega
  | succ n ih =>
    intro i acc h1 h2
    unfold oaWorksLoop
    cases hsv : serve i with
    | mk results nextCursor =>
      dsimp only
      by_cases hres : results = []
      · simp [hres]
      · rw [if_neg hres]
        cases hcur : truthyId nextCursor with
        | none => simp
        | some c =>
          dsimp only
          by_cases hcap : 5000 < (acc ++ results).length
          · rw [if_pos hcap]
            simp
          · rw [if_neg hcap]
            have hr1 : 1 ≤ results.length := by
              cases results with
              | nil => exact absurd rfl hres
              | cons _ _ => simp
            simp only [List.length_append] at hcap
            apply ih
            · simp only [List.length_append]
              omega
            · simp only [List.length_append]
              omega

/-- The author-works fetch runs its capped loop to a real exit: fuel 5001
always suffices from the empty accumulator. -/
theorem oa_get_author_works_total (serve : Nat → List OAWork × Option String) :
    oaWorksLoop serve 5001 0 [] ≠ none := by
  apply oaWorksLoop_terminates <;> simp

/-- Claim C4: the claim is wrong about the inline per-chunk citing-works
loop of `main` (lines 507-518) — it has no accumulated-size cap, so
against a server that keeps answering a non-empty page with a repeated
cursor it never reaches any of its exit conditions, for any number of
iterations. -/
theorem main_cite_loop_diverges :
    ∀ (fuel i : Nat) (acc : List OAWork),
      mainCiteLoop cAdvServe fuel i acc = none := by
  intro fuel
  induction fuel with
  | zero => intro i acc; rfl
  | succ n ih =>
    intro i acc
    simp only [mainCiteLoop, cAdvServe]
    simp only [truthyId, if_neg (by decide : ¬ ("cursor" : String) = "")]
    simpa using ih (i + 1) _

/-! ## Claim C10: the citing-works cap -/

/-- Claim C10: `oa_get_citing_works` returns at most `max_works` works —
the chunk loop stops requesting once the collected total has reached
`max_works`, the per-chunk pagination does not iterate past the cap, and
the concatenated result is truncated to the first `max_works` items. -/
theorem citing_works_capped :
    (∀ (worksServe : Nat → List OAWork × Option String)
       (citesServe : List String → Nat → List OAWork × Option String)
       (maxWorks : Nat),
      (oa_get_citing_works worksServe citesServe maxWorks).length ≤ maxWorks)
    ∧ (∀ (citesServe : List String → Nat → List OAWork × Option String)
         (maxWorks : Nat) (chunk : List String) (rest : List (List String))
         (acc : List OAWork),
        maxWorks ≤ acc.length →
        citeChunksLoop citesServe maxWorks (chunk :: rest) acc = acc)
    ∧ (∀ (citesServe : List String → Nat → List OAWork × Option String)
         (chunk : List String) (maxWorks fuel i : Nat) (acc : List OAWork),
        ¬ acc.length < maxWorks →
        citeChunkLoop citesServe chunk maxWorks (fuel + 1) i acc = acc) := by
  refine ⟨?_, ?_, ?_⟩
  · intro ws cs mw
    unfold oa_get_citing_works
    dsimp only
    split_ifs
    · simp
    · simp
    · simp [List.length_take]
  · intro cs mw chunk rest acc h
    unfold citeChunksLoop
    rw [if_pos h]
  · intro cs chunk mw fuel i acc h
    unfold citeChunkLoop
    rw [if_neg h]

/-- Claim C10 witness: with the cap already reached, the chunk loop issues
no further request and returns the accumulator unchanged. -/
theorem citing_works_capped_witness :
    citeChunksLoop (fun _ _ => ([], none)) 0 [["W1"]] [] = [] :=
  citing_works_capped.2.1 (fun _ _ => ([], none)) 0 ["W1"] [] [] (by decide)

/-! ## Claim C7: rate-limit retry -/

/-- Claim C7 (amended): on HTTP 429 the Semantic Scholar adapter calls
sleep a fixed delay (2 s for search, 5 s for the paged fetch) and retry
exactly once, a second failure propagating as a recoverable error for
that call only (an empty result); the retry-once policy does not extend
to every call of both sources — the OpenAlex author-search call
(`oa_search_authors`) has no rate-limit retry: it issues its single
request, a 429 is caught like any other HTTP error, and that call yields
an empty result. -/
theorem rate_limit_retry_behaviour :
    ∀ (sserve : Nat → HttpResp (List S2SearchRec))
      (pserve : Nat → HttpResp (List S2Paper))
      (oserve : Nat → HttpResp (List OASearchRec)) (q : String),
      q ≠ "" →
      ((sserve 0).status = 429 →
        (s2_search_authors sserve q).requests = 2
        ∧ (s2_search_authors sserve q).sleeps = [2]
        ∧ (400 ≤ (sserve 1).status → (s2_search_authors sserve q).result = []))
      ∧ ((pserve 0).status = 429 →
        (s2_get_data pserve).requests = 2
        ∧ (s2_get_data pserve).sleeps = [5]
        ∧ (400 ≤ (pserve 1).status → (s2_get_data pserve).result = []))
      ∧ ((oserve 0).status = 429 →
        (oa_search_authors oserve q).requests = 1
        ∧ (oa_search_authors oserve q).sleeps = []
        ∧ (oa_search_authors oserve q).result = []) := by
  intro sserve pserve oserve q hq
  refine ⟨?_, ?_, ?_⟩
  · intro h429
    unfold s2_search_authors s2RetryFetch
    rw [if_neg hq, if_pos h429]
    by_cases hr1 : 400 ≤ (sserve 1).status
    · simp [hr1]
    · simp [hr1]
  · intro h429
    unfold s2_get_data s2RetryFetch
    rw [if_pos h429]
    by_cases hr1 : 400 ≤ (pserve 1).status
    · simp [hr1]
    · simp [hr1]
  · intro h429
    unfold oa_search_authors
    rw [if_neg hq, if_pos (by omega : 400 ≤ (oserve 0).status)]
    exact ⟨rfl, rfl, rfl⟩

/-- Claim C7 witness: concrete rate-limited servers exercising all three
conjuncts. -/
theorem rate_limit_retry_behaviour_witness :
    (s2_search_authors cS2SearchServe "q").requests = 2
      ∧ (s2_get_data cS2PaperServe).sleeps = [5]
      ∧ (oa_search_authors cOAServe "q").result = [] := by
  refine ⟨?_, ?_, ?_⟩
  · exact ((rate_limit_retry_behaviour cS2SearchServe cS2PaperServe cOAServe "q"
      (by decide)).1 (by decide)).1
  · exact ((rate_limit_retry_behaviour cS2SearchServe cS2PaperServe cOAServe "q"
      (by decide)).2.1 (by decide)).2.1
  · exact ((rate_limit_retry_behaviour cS2SearchServe cS2PaperServe cOAServe "q"
      (by decide)).2.2 (by decide)).2.2

/-- Claim C7 counterexample: the OpenAlex search adapter does not retry on
429 — the first response is rate-limited, a second request would have
returned a parsable candidate, yet the call issues exactly one request and
returns an empty result. -/
theorem oa_search_no_retry_counterexample :
    (oa_search_authors cOAServe "hinton").requests = 1
      ∧ (oa_search_authors cOAServe "hinton").result = []
      ∧ (cOAServe 0).status = 429
      ∧ (cOAServe 1).status = 200
      ∧ (cOAServe 1).body.map oaBuildCandidate ≠ [] := by decide

/-! ## Claim C8: normalization idempotency -/

/-- Claim C8 (amended): `oa_normalize` is a pure total function on strings
and is idempotent on every input whose normalized form does not itself
start with the URL prefix — in particular on every bare ID and every
well-formed prefixed ID; it is not idempotent on all strings. -/
theorem normalize_idempotent_unless_reprefixed :
    ∀ x : String,
      pyStartsWith "https://openalex.org/" (oa_normalize x) = false →
      oa_normalize (oa_normalize x) = oa_normalize x := by
  intro x h
  conv_lhs => rw [oa_normalize]
  rw [h]
  simp

/-- Claim C8 witness: idempotency on a bare ID. -/
theorem normalize_idempotent_witness :
    oa_normalize (oa_normalize "A123") = oa_normalize "A123" :=
  normalize_idempotent_unless_reprefixed "A123" (by decide)

/-- Claim C8 counterexample: Python's `replace` removes *every* occurrence
of the prefix, so on `cBadId` the deletions re-create the bare prefix,
which a second normalization maps to `""` — normalization is not
idempotent on all strings. -/
theorem normalize_not_idempotent_counterexample :
    oa_normalize (oa_normalize cBadId) ≠ oa_normalize cBadId
      ∧ oa_normalize cBadId = "https://openalex.org/"
      ∧ oa_normalize (oa_normalize cBadId) = "" := by decide

end CitationSource
